import Mathlib

/-!
# Verification of the Spatial Audio Upmixer core DSP

Shallow embedding of `src/spatial_audio` (DSP utilities, FIR crossover,
allpass decorrelation, the 7.1.4 mixer, the 5.1 downmix, the analyzer and
the preset adapter).  Audio samples are modelled as real numbers: the Python
code computes in IEEE float64, which we idealise to `ℝ`.  Mono signals are
`List ℝ`, stereo signals `List (ℝ × ℝ)`, and an `(N, C)` buffer is a list of
rows `Fin C → ℝ` (so the channel count is carried by the type and `N` is the
list length).

External library calls whose values the repository does not compute itself —
the `scipy.signal.firwin` tap design and the seeded-RNG allpass coefficients
of `_make_allpass_sos` — enter the embedding as parameters; every operation
the repository performs on those values is translated literally from the
source.  Library failure modes that the claims touch are modelled explicitly:
`np.max` on a zero-size array raises `ValueError` (so `peak_normalize` is
`Option`-valued and returns `none` for an empty buffer), a `numpy` in-place
column addition with a length-mismatched operand raises (so the mixer's
`+=` steps are `Option`-valued), and `scipy.signal.stft` rejects a
zero-length segment (so `analyse` is `Except`-valued).
-/

namespace SpatialAudio

/-- Audio that is either mono `(N,)` or stereo `(N, 2)`, mirroring the
`ndim` branches of the helpers in `dsp/utils.py` and of `analyse`. -/
inductive Aud where
  | mono (x : List ℝ)
  | stereo (x : List (ℝ × ℝ))

/-- The frame count `N` of an audio buffer, for both the `(N,)` and the
`(N, 2)` shapes. -/
def Aud.length : Aud → ℕ
  | .mono x => x.length
  | .stereo x => x.length

/-- `to_mono` (dsp/utils.py): average the two channels of a stereo signal;
a mono signal passes through. -/
noncomputable def to_mono : Aud → List ℝ
  | .mono x => x
  | .stereo x => x.map (fun p => (p.1 + p.2) / 2)

/-- `mid_side` (dsp/utils.py): mid `(L+R)/2` and side `(L-R)/2`; a mono
signal yields itself and an all-zero side (`np.zeros_like`). -/
noncomputable def mid_side : Aud → List ℝ × List ℝ
  | .mono x => (x, x.map (fun _ => 0))
  | .stereo x => (x.map (fun p => (p.1 + p.2) / 2), x.map (fun p => (p.1 - p.2) / 2))

/-- `get_left` (dsp/utils.py). -/
def get_left : Aud → List ℝ
  | .mono x => x
  | .stereo x => x.map Prod.fst

/-- `get_right` (dsp/utils.py). -/
def get_right : Aud → List ℝ
  | .mono x => x
  | .stereo x => x.map Prod.snd

/-- `db_to_linear` (dsp/utils.py): `10.0 ** (db / 20.0)` as a real power. -/
noncomputable def db_to_linear (db : ℝ) : ℝ := (10 : ℝ) ^ (db / 20)

/-- The peak `np.max(np.abs(x))` of an `(N, C)` buffer.  The fold floors the
value at `0`, which agrees with numpy on every nonempty buffer (absolute
values are nonnegative); numpy raises on the empty buffer, which callers
guard explicitly. -/
noncomputable def buf_peak {C : ℕ} (x : List (Fin C → ℝ)) : ℝ :=
  x.foldr (fun row acc => max ((List.finRange C).foldr (fun i a => max |row i| a) 0) acc) 0

/-- `peak_normalize` (dsp/utils.py).  `np.max` on a zero-size array raises
`ValueError`, modelled as `none`.  Otherwise: a peak below `1e-10` means
silence and the buffer is returned unchanged, else the whole buffer is
scaled by `target_amp / peak`. -/
noncomputable def peak_normalize {C : ℕ} (x : List (Fin C → ℝ)) (target_dbfs : ℝ) :
    Option (List (Fin C → ℝ)) :=
  if x = [] then none
  else if buf_peak x < 1e-10 then some x
  else some (x.map (fun row i => row i * (db_to_linear target_dbfs / buf_peak x)))

/-- The elementwise kernel of `soft_clip` (dsp/utils.py): a sample with
`|v| ≤ threshold` passes unchanged; above the threshold the overshoot is
squashed by `tanh`, the overshoot being scaled by `1 / (1 - threshold + 1e-9)`
(the source adds the `1e-9` guard to the denominator). -/
noncomputable def soft_clip_sample (threshold v : ℝ) : ℝ :=
  if threshold < |v| then
    Real.sign v *
      (threshold + (1 - threshold) * Real.tanh ((|v| - threshold) / (1 - threshold + 1e-9)))
  else v

/-- `soft_clip` on a 1-D signal (numpy applies the kernel elementwise; the
`np.any(mask)` early return is an optimisation with the same value). -/
noncomputable def soft_clip (x : List ℝ) (threshold : ℝ) : List ℝ :=
  x.map (soft_clip_sample threshold)

/-- `soft_clip` on an `(N, C)` buffer. -/
noncomputable def soft_clip_buf {C : ℕ} (x : List (Fin C → ℝ)) (threshold : ℝ) :
    List (Fin C → ℝ) :=
  x.map (fun row i => soft_clip_sample threshold (row i))

/-- `apply_delay` (dsp/utils.py): prepend `round(delay_ms * sr / 1000)` zeros
and truncate to the original length; a non-positive delay returns the input.
(`round` here rounds half up while Python's rounds half to even; they agree
except exactly at `.5` ties, and no claim depends on the tie convention —
only on the output length, which is the input's either way.) -/
noncomputable def apply_delay (x : List ℝ) (delay_ms : ℝ) (sample_rate : ℕ) : List ℝ :=
  let delay_samples : ℤ := round (delay_ms * sample_rate / 1000)
  if delay_samples ≤ 0 then x
  else (List.replicate delay_samples.toNat 0 ++ x).take x.length

/-- Full linear convolution, the exact value of
`scipy.signal.fftconvolve(x, fir, mode="full")` (FFT convolution is linear
convolution up to floating point; scipy returns an empty array when an
input is empty, as this does for empty `x`). -/
noncomputable def conv_full (x h : List ℝ) : List ℝ :=
  (List.range (x.length + h.length - 1)).map fun n =>
    ∑ k ∈ Finset.range (n + 1), x.getD k 0 * h.getD (n - k) 0

/-- The 1-D branch of `Crossover._apply` (dsp/crossover.py): full
convolution trimmed to the input length. -/
noncomputable def fir_apply (fir x : List ℝ) : List ℝ :=
  (conv_full x fir).take x.length

/-- The multi-channel branch of `Crossover._apply`: every channel filtered
independently (channels modelled as separate lists). -/
noncomputable def fir_apply_multi (fir : List ℝ) (chans : List (List ℝ)) : List (List ℝ) :=
  chans.map (fir_apply fir)

/-- The `num_taps` adjustment in `Crossover.__init__`: an even tap count is
incremented ("must be odd for Type I FIR"). -/
def oddify (num_taps : ℕ) : ℕ := if num_taps % 2 = 0 then num_taps + 1 else num_taps

/-- A two-way linear-phase FIR crossover (dsp/crossover.py).  `lp` stands for
the output of the external `scipy.signal.firwin` call (`oddify num_taps`
Hann-windowed lowpass taps); everything performed on it is translated from
the source. -/
structure Crossover where
  lp : List ℝ
  group_delay : ℕ

/-- `Crossover.__init__` given the firwin output: `group_delay = (num_taps - 1) // 2`
after the odd adjustment. -/
def Crossover.ofFirwin (lp : List ℝ) (num_taps : ℕ) : Crossover :=
  { lp := lp, group_delay := (oddify num_taps - 1) / 2 }

/-- Spectral inversion (`Crossover.__init__`): negate every lowpass tap, then
add `1.0` to the centre tap (`_hp[group_delay] += 1.0`). -/
noncomputable def Crossover.hp (c : Crossover) : List ℝ :=
  (c.lp.map fun t => -t).set c.group_delay (-c.lp.getD c.group_delay 0 + 1)

/-- `Crossover.lowpass` on a mono signal. -/
noncomputable def Crossover.lowpass (c : Crossover) (x : List ℝ) : List ℝ :=
  fir_apply c.lp x

/-- `Crossover.highpass` on a mono signal. -/
noncomputable def Crossover.highpass (c : Crossover) (x : List ℝ) : List ℝ :=
  fir_apply c.hp x

/-- One normalised second-order section `[b0, b1, b2, 1, a1, a2]`, as stored
by `_make_allpass_sos` (dsp/decorrelation.py) after division by `a0`. -/
structure Biquad where
  b0 : ℝ
  b1 : ℝ
  b2 : ℝ
  a1 : ℝ
  a2 : ℝ

/-- One direct-form-II-transposed biquad with explicit two-element state,
the per-section recurrence `scipy.signal.sosfilt` implements. -/
noncomputable def biquad_df2t (c : Biquad) : ℝ × ℝ → List ℝ → List ℝ
  | _, [] => []
  | (z1, z2), v :: xs =>
    let y := c.b0 * v + z1
    y :: biquad_df2t c (c.b1 * v + z2 - c.a1 * y, c.b2 * v - c.a2 * y) xs

/-- `scipy.signal.sosfilt`: cascade the sections in order, each with zero
initial state. -/
noncomputable def sosfilt (sos : List Biquad) (x : List ℝ) : List ℝ :=
  sos.foldl (fun acc c => biquad_df2t c (0, 0) acc) x

/-- `Decorrelator` (dsp/decorrelation.py).  Its `sos` array is produced by
the seeded `numpy` generator inside `_make_allpass_sos` (an external
library call), so the coefficients are a parameter of the embedding. -/
structure Decorrelator where
  sos : List Biquad

/-- `Decorrelator.process`: run the cascaded allpass sections. -/
noncomputable def Decorrelator.process (d : Decorrelator) (x : List ℝ) : List ℝ :=
  sosfilt d.sos x

/-- `Decorrelator.process_blended`: `(1 - blend) * x + blend * process x`,
elementwise. -/
noncomputable def Decorrelator.process_blended (d : Decorrelator) (x : List ℝ) (blend : ℝ) :
    List ℝ :=
  List.zipWith (fun v w => (1 - blend) * v + blend * w) x (d.process x)

/-! ## Configuration (config.py) -/

/-- `CHANNEL_COUNT_714`. -/
def CHANNEL_COUNT_714 : ℕ := 12

/-- Channel indices of the 7.1.4 bed (config.py). -/
def CH_FL : Fin 12 := 0
/-- Front right. -/
def CH_FR : Fin 12 := 1
/-- Front centre. -/
def CH_FC : Fin 12 := 2
/-- Low-frequency effects. -/
def CH_LFE : Fin 12 := 3
/-- Back left. -/
def CH_BL : Fin 12 := 4
/-- Back right. -/
def CH_BR : Fin 12 := 5
/-- Side left. -/
def CH_SL : Fin 12 := 6
/-- Side right. -/
def CH_SR : Fin 12 := 7
/-- Top front left. -/
def CH_TFL : Fin 12 := 8
/-- Top front right. -/
def CH_TFR : Fin 12 := 9
/-- Top back left. -/
def CH_TBL : Fin 12 := 10
/-- Top back right. -/
def CH_TBR : Fin 12 := 11

/-- `DECORR_BLEND_SURROUND`. -/
noncomputable def DECORR_BLEND_SURROUND : ℝ := 0.40

/-- `DECORR_BLEND_HEIGHT`. -/
noncomputable def DECORR_BLEND_HEIGHT : ℝ := 0.65

/-- `MixPreset` (config.py); the defaults are the `medium` preset. -/
structure MixPreset where
  vocal_center_gain : ℝ := 0.90
  vocal_width_bleed : ℝ := 0.12
  bass_lfe_gain : ℝ := 0.80
  bass_center_gain : ℝ := 0.70
  drum_front_gain : ℝ := 0.85
  drum_lfe_gain : ℝ := 0.60
  drum_height_bleed : ℝ := 0.08
  other_side_gain : ℝ := 0.65
  other_rear_gain : ℝ := 0.40
  other_height_gain : ℝ := 0.22
  other_front_bleed : ℝ := 0.15
  surround_delay_ms : ℝ := 15.0
  rear_extra_delay_ms : ℝ := 8.0
  target_peak_dbfs : ℝ := -1.0
  fir_taps : ℕ := 511
  decorr_stages : ℕ := 10

/-- `PRESET_MEDIUM` (config.py): the dataclass defaults. -/
noncomputable def PRESET_MEDIUM : MixPreset := {}

/-! ## Stems and the 7.1.4 mixer (separator.py `StemData`, mixer.py) -/

/-- `StemData` (separator.py): four stereo stems plus the sample rate. -/
structure StemData where
  vocals : List (ℝ × ℝ)
  drums : List (ℝ × ℝ)
  bass : List (ℝ × ℝ)
  other : List (ℝ × ℝ)
  sample_rate : ℕ

/-- A 12-channel `(N, 12)` buffer: one row per sample frame. -/
abbrev Buf714 := List (Fin 12 → ℝ)

/-- `np.zeros((n, CHANNEL_COUNT_714))`. -/
noncomputable def zeros714 (n : ℕ) : Buf714 :=
  List.replicate n (fun _ => 0)

/-- One `output[:, ch] += sig` step of the mixer.  numpy raises a broadcast
error when `sig` is not of the output's length (it never is of length one
in the mixer, every contribution having a stem's length), modelled as
`none`. -/
noncomputable def add_into (out : Buf714) (ch : Fin 12) (sig : List ℝ) : Option Buf714 :=
  if sig.length = out.length then
    some (List.zipWith (fun row v i => if i = ch then row i + v else row i) out sig)
  else none

/-- Scalar gain `sig * g` on a mono signal. -/
noncomputable def gain (x : List ℝ) (g : ℝ) : List ℝ :=
  x.map (fun v => v * g)

/-- Section 1 of `mix_to_714`: vocals to FC plus decorrelated stereo-side
width on FL/FR (the right side sign-inverted). -/
noncomputable def route_vocals (stems : StemData) (preset : MixPreset) (xo_lfe : Crossover)
    (dSL dSR : Decorrelator) (output : Buf714) : Option Buf714 := do
  let ms := mid_side (.stereo stems.vocals)
  let vocal_center := gain (xo_lfe.highpass ms.1) preset.vocal_center_gain
  let output ← add_into output CH_FC vocal_center
  let vocal_side_l := gain ms.2 preset.vocal_width_bleed
  let vocal_side_r := gain (ms.2.map (fun v => -v)) preset.vocal_width_bleed
  let output ← add_into output CH_FL (dSL.process_blended vocal_side_l 0.3)
  let output ← add_into output CH_FR (dSR.process_blended vocal_side_r 0.3)
  pure output

/-- Section 2 of `mix_to_714`: bass to LFE (below the crossover) and FC
(above it). -/
noncomputable def route_bass (stems : StemData) (preset : MixPreset) (xo_lfe : Crossover)
    (output : Buf714) : Option Buf714 := do
  let bass_mono := to_mono (.stereo stems.bass)
  let output ← add_into output CH_LFE (gain (xo_lfe.lowpass bass_mono) preset.bass_lfe_gain)
  let output ← add_into output CH_FC (gain (xo_lfe.highpass bass_mono) preset.bass_center_gain)
  pure output

/-- Section 3 of `mix_to_714`: drums to FL/FR (highpassed stereo image), LFE
(kick sub) and, above a `0.01` bleed threshold, decorrelated height shimmer
on TFL/TFR. -/
noncomputable def route_drums (stems : StemData) (preset : MixPreset)
    (xo_lfe xo_height : Crossover) (dTFL dTFR : Decorrelator) (output : Buf714) :
    Option Buf714 := do
  let drum_left := get_left (.stereo stems.drums)
  let drum_right := get_right (.stereo stems.drums)
  let drum_mono := to_mono (.stereo stems.drums)
  let output ← add_into output CH_LFE (gain (xo_lfe.lowpass drum_mono) preset.drum_lfe_gain)
  let output ← add_into output CH_FL (gain (xo_lfe.highpass drum_left) preset.drum_front_gain)
  let output ← add_into output CH_FR (gain (xo_lfe.highpass drum_right) preset.drum_front_gain)
  if 0.01 < preset.drum_height_bleed then
    let drum_hp := xo_height.highpass drum_mono
    let output ← add_into output CH_TFL
      ((dTFL.process_blended (gain drum_hp preset.drum_height_bleed)) DECORR_BLEND_HEIGHT)
    let output ← add_into output CH_TFR
      ((dTFR.process_blended (gain drum_hp preset.drum_height_bleed)) DECORR_BLEND_HEIGHT)
    pure output
  else
    pure output

/-- Section 4 of `mix_to_714`: "other" to the side surrounds (delayed,
decorrelated), back surrounds (extra delay), heights (above a `0.01` gain
threshold) and a subtle front bleed (above its own `0.01` threshold). -/
noncomputable def route_other (stems : StemData) (preset : MixPreset)
    (xo_lfe xo_height : Crossover) (dSL dSR dBL dBR dTFL dTFR dTBL dTBR : Decorrelator)
    (output : Buf714) : Option Buf714 := do
  let sr := stems.sample_rate
  let other_left_hp := xo_lfe.highpass (get_left (.stereo stems.other))
  let other_right_hp := xo_lfe.highpass (get_right (.stereo stems.other))
  let other_mono_hp := xo_lfe.highpass (to_mono (.stereo stems.other))
  let sl_delayed := apply_delay (gain other_left_hp preset.other_side_gain)
    preset.surround_delay_ms sr
  let sr_delayed := apply_delay (gain other_right_hp preset.other_side_gain)
    preset.surround_delay_ms sr
  let output ← add_into output CH_SL (dSL.process_blended sl_delayed DECORR_BLEND_SURROUND)
  let output ← add_into output CH_SR (dSR.process_blended sr_delayed DECORR_BLEND_SURROUND)
  let total_rear_delay := preset.surround_delay_ms + preset.rear_extra_delay_ms
  let bl_raw := apply_delay (gain other_left_hp preset.other_rear_gain) total_rear_delay sr
  let br_raw := apply_delay (gain other_right_hp preset.other_rear_gain) total_rear_delay sr
  let output ← add_into output CH_BL (dBL.process_blended bl_raw (DECORR_BLEND_SURROUND + 0.10))
  let output ← add_into output CH_BR (dBR.process_blended br_raw (DECORR_BLEND_SURROUND + 0.10))
  let output ←
    if 0.01 < preset.other_height_gain then do
      let other_height_hp := xo_height.highpass other_mono_hp
      let output ← add_into output CH_TFL
        (dTFL.process_blended (gain other_height_hp preset.other_height_gain)
          DECORR_BLEND_HEIGHT)
      let output ← add_into output CH_TFR
        (dTFR.process_blended (gain other_height_hp preset.other_height_gain)
          DECORR_BLEND_HEIGHT)
      let output ← add_into output CH_TBL
        (dTBL.process_blended (gain (gain other_height_hp preset.other_height_gain) 0.8)
          (DECORR_BLEND_HEIGHT + 0.10))
      let output ← add_into output CH_TBR
        (dTBR.process_blended (gain (gain other_height_hp preset.other_height_gain) 0.8)
          (DECORR_BLEND_HEIGHT + 0.10))
      pure output
    else
      pure output
  if 0.01 < preset.other_front_bleed then
    let output ← add_into output CH_FL (gain other_left_hp preset.other_front_bleed)
    let output ← add_into output CH_FR (gain other_right_hp preset.other_front_bleed)
    pure output
  else
    pure output

/-- The routing phase of `mix_to_714` (mixer.py): allocate the zero output
buffer of the vocals stem's length and run sections 1–4.  The crossovers'
firwin taps and the decorrelation bank's RNG-derived section coefficients
are parameters (see the module docstring); `bank i` is the decorrelator the
`DecorrelationBank` builds with seed `42 + i`, the mixer's role mapping
being `D_SL, D_SR, D_BL, D_BR, D_TFL, D_TFR, D_TBL, D_TBR = 0..7`. -/
noncomputable def route_all (stems : StemData) (preset : MixPreset)
    (lp_lfe lp_height : List ℝ) (bank : Fin 8 → List Biquad) : Option Buf714 := do
  let xo_lfe := Crossover.ofFirwin lp_lfe preset.fir_taps
  let xo_height := Crossover.ofFirwin lp_height preset.fir_taps
  let d : Fin 8 → Decorrelator := fun i => ⟨bank i⟩
  let output := zeros714 stems.vocals.length
  let output ← route_vocals stems preset xo_lfe (d 0) (d 1) output
  let output ← route_bass stems preset xo_lfe output
  let output ← route_drums stems preset xo_lfe xo_height (d 4) (d 5) output
  let output ← route_other stems preset xo_lfe xo_height
    (d 0) (d 1) (d 2) (d 3) (d 4) (d 5) (d 6) (d 7) output
  pure output

/-- `mix_to_714` (mixer.py): routing, then `soft_clip(·, 0.95)`, then
`peak_normalize(·, preset.target_peak_dbfs)`, returning the buffer together
with the stems' sample rate. -/
noncomputable def mix_to_714 (stems : StemData) (preset : MixPreset)
    (lp_lfe lp_height : List ℝ) (bank : Fin 8 → List Biquad) : Option (Buf714 × ℕ) :=
  (route_all stems preset lp_lfe lp_height bank).bind fun output =>
    (peak_normalize (soft_clip_buf output 0.95) preset.target_peak_dbfs).map
      fun out => (out, stems.sample_rate)

/-! ## Downmix 7.1.4 → 5.1 (mixer.py `downmix_714_to_51`) -/

/-- `downmix_714_to_51` (mixer.py): the fixed ITU-R BS.775 fold-down matrix
applied per sample frame, then `peak_normalize(·, -1.0)`.  The source fills
the six columns of an `(N, 6)` zero buffer; per-row application of the same
six linear combinations is the transposed but identical computation. -/
noncomputable def downmix_714_to_51 (audio_714 : Buf714) : Option (List (Fin 6 → ℝ)) :=
  peak_normalize
    (audio_714.map fun r =>
      ![r CH_FL + 0.707 * r CH_SL + 0.500 * r CH_BL + 0.500 * r CH_TFL + 0.350 * r CH_TBL,
        r CH_FR + 0.707 * r CH_SR + 0.500 * r CH_BR + 0.500 * r CH_TFR + 0.350 * r CH_TBR,
        r CH_FC,
        r CH_LFE,
        r CH_SL + 0.707 * r CH_BL + 0.500 * r CH_TBL,
        r CH_SR + 0.707 * r CH_BR + 0.500 * r CH_TBR])
    (-1.0)

/-! ## Analyzer (analyzer.py) -/

/-- `AnalysisResult` (analyzer.py). -/
structure AnalysisResult where
  spectral_centroid_hz : ℝ
  bass_energy_ratio : ℝ
  transient_density : ℝ
  stereo_width : ℝ
  dynamic_range_db : ℝ
  rms_dbfs : ℝ
  description : String

/-- The magnitude spectrogram `|Zxx|` of `scipy.signal.stft` together with
the bin frequencies `f`: one magnitude list per time frame, indexed by bin.
The values are an external library computation and enter `analyse` as a
parameter. -/
structure Stft where
  freqs : List ℝ
  frames : List (List ℝ)

/-- `np.clip(v, 0, 1)`. -/
noncomputable def clip01 (v : ℝ) : ℝ := min (max v 0) 1

/-- `analyse` (analyzer.py).  `stftFn` stands for `scipy.signal.stft`
restricted to valid segment lengths and `corrFn` for the `[0, 1]` entry of
`np.corrcoef` — both external library calls.  Two failure modes of the
source are modelled as `Except.error`: `scipy.signal.stft` rejects a
zero-length segment (`nperseg = min(4096, len(mono)) = 0` on empty input
makes its `noverlap < nperseg` validation raise `ValueError`), and
`len(mono) // frame_len` raises `ZeroDivisionError` when
`int(0.01 * sample_rate) = 0`.  Where numpy would yield NaN on an empty
mean (never reached past the stft guard), real division by zero yields `0`.
-/
noncomputable def analyse (stftFn : List ℝ → ℕ → ℕ → Stft) (corrFn : List ℝ → List ℝ → ℝ)
    (audio : Aud) (sample_rate : ℕ) : Except Unit AnalysisResult :=
  let mono := match audio with
    | .stereo a => a.map (fun p => (p.1 + p.2) / 2)
    | .mono a => a
  let nperseg := min 4096 mono.length
  if nperseg < 1 then .error ()
  else
    let st := stftFn mono sample_rate nperseg
    let centroid_per_frame := st.frames.map fun col =>
      (List.zipWith (fun f v => f * v) st.freqs col).sum / (col.sum + 1e-12)
    let spectral_centroid : ℝ := centroid_per_frame.sum / (centroid_per_frame.length : ℝ)
    let total_energy := (st.frames.map fun col => (col.map (fun v => v ^ 2)).sum).sum + 1e-12
    let bass_energy := (st.frames.map fun col =>
      (List.zipWith (fun f v => if f < 250 then v ^ 2 else 0) st.freqs col).sum).sum
    let bass_r : ℝ := bass_energy / total_energy
    let frame_len := (⌊(0.01 : ℝ) * sample_rate⌋).toNat
    if frame_len = 0 then .error ()
    else
      let n_frames := mono.length / frame_len
      let td_dr : ℝ × ℝ :=
        if 2 ≤ n_frames then
          let energy := (List.range n_frames).map fun i =>
            (((mono.drop (i * frame_len)).take frame_len).map (fun v => v ^ 2)).sum
          let energy_db := energy.map fun e => 10 * Real.logb 10 (e + 1e-12)
          let diff := List.zipWith (fun a b => b - a) energy_db energy_db.tail
          let transients := diff.countP fun delta => decide ((6.0 : ℝ) < delta)
          let energy_sorted := energy_db.insertionSort (· ≤ ·)
          let idx_hi := (⌊(0.95 : ℝ) * energy_sorted.length⌋).toNat
          let idx_lo := (⌊(0.10 : ℝ) * energy_sorted.length⌋).toNat
          (clip01 ((transients : ℝ) / (n_frames : ℝ)),
           energy_sorted.getD idx_hi 0 - energy_sorted.getD idx_lo 0)
        else (0.5, 20.0)
      let stereo_w : ℝ := match audio with
        | .stereo a => clip01 (1 - |corrFn (a.map Prod.fst) (a.map Prod.snd)|)
        | .mono _ => 0
      let rms := Real.sqrt ((mono.map (fun v => v ^ 2)).sum / (mono.length : ℝ))
      let rms_db := 20 * Real.logb 10 (rms + 1e-12)
      let brightness := if 3000 < spectral_centroid then "bright"
        else if spectral_centroid < 1500 then "warm" else "balanced"
      let bass_level := if 0.35 < bass_r then "bass-heavy"
        else if bass_r < 0.15 then "light-bass" else "moderate-bass"
      let transient_level := if 0.15 < td_dr.1 then "transient-rich" else "smooth"
      let width_label := if 0.4 < stereo_w then "wide-stereo"
        else if stereo_w < 0.15 then "narrow" else "moderate-width"
      .ok
        { spectral_centroid_hz := spectral_centroid
          bass_energy_ratio := bass_r
          transient_density := td_dr.1
          stereo_width := stereo_w
          dynamic_range_db := td_dr.2
          rms_dbfs := rms_db
          description :=
            brightness ++ ", " ++ bass_level ++ ", " ++ transient_level ++ ", " ++ width_label }

/-! ## Preset adapter (analyzer.py `adapt_preset`) -/

/-- The bass-weight rules of `adapt_preset` (mutually exclusive branches of
an `if`/`elif`). -/
noncomputable def adapt_bass (analysis : AnalysisResult) (p : MixPreset) : MixPreset :=
  if 0.30 < analysis.bass_energy_ratio then
    { p with bass_lfe_gain := min (p.bass_lfe_gain + 0.10) 1.0
             bass_center_gain := max (p.bass_center_gain - 0.05) 0.50 }
  else if analysis.bass_energy_ratio < 0.15 then
    { p with bass_lfe_gain := max (p.bass_lfe_gain - 0.10) 0.40
             bass_center_gain := min (p.bass_center_gain + 0.05) 0.85 }
  else p

/-- The brightness (spectral-centroid) rules of `adapt_preset`. -/
noncomputable def adapt_centroid (analysis : AnalysisResult) (p : MixPreset) : MixPreset :=
  if 3500 < analysis.spectral_centroid_hz then
    { p with other_height_gain := min (p.other_height_gain + 0.06) 0.35
             drum_height_bleed := min (p.drum_height_bleed + 0.04) 0.15 }
  else if analysis.spectral_centroid_hz < 1200 then
    { p with other_height_gain := max (p.other_height_gain - 0.05) 0.10 }
  else p

/-- The transient-density rules of `adapt_preset`. -/
noncomputable def adapt_transient (analysis : AnalysisResult) (p : MixPreset) : MixPreset :=
  if 0.20 < analysis.transient_density then
    { p with drum_height_bleed := max (p.drum_height_bleed - 0.03) 0.03
             surround_delay_ms := max (p.surround_delay_ms - 3.0) 8.0 }
  else if analysis.transient_density < 0.05 then
    { p with other_side_gain := min (p.other_side_gain + 0.08) 0.80
             other_rear_gain := min (p.other_rear_gain + 0.06) 0.55
             surround_delay_ms := min (p.surround_delay_ms + 4.0) 25.0 }
  else p

/-- The stereo-width rules of `adapt_preset`. -/
noncomputable def adapt_width (analysis : AnalysisResult) (p : MixPreset) : MixPreset :=
  if 0.45 < analysis.stereo_width then
    { p with other_side_gain := min (p.other_side_gain + 0.05) 0.80
             other_rear_gain := min (p.other_rear_gain + 0.04) 0.55
             vocal_width_bleed := min (p.vocal_width_bleed + 0.03) 0.20 }
  else if analysis.stereo_width < 0.10 then
    { p with other_side_gain := max (p.other_side_gain - 0.08) 0.40
             other_rear_gain := max (p.other_rear_gain - 0.05) 0.25 }
  else p

/-- The dynamic-range rules of `adapt_preset`. -/
noncomputable def adapt_dr (analysis : AnalysisResult) (p : MixPreset) : MixPreset :=
  if analysis.dynamic_range_db < 12.0 then { p with target_peak_dbfs := -1.5 }
  else if 30.0 < analysis.dynamic_range_db then { p with target_peak_dbfs := -0.5 }
  else p

/-- `adapt_preset` (analyzer.py): start from a shallow copy of the base and
apply the five rule groups in source order (each mutating the copy, i.e.
each reading the previous group's result). -/
noncomputable def adapt_preset (base : MixPreset) (analysis : AnalysisResult) : MixPreset :=
  adapt_dr analysis
    (adapt_width analysis (adapt_transient analysis (adapt_centroid analysis
      (adapt_bass analysis base))))

/-- The seven preset fields that no rule of §4.3 assigns, bundled so that
frame lemmas can be chained through the five rule groups. -/
noncomputable def MixPreset.untouched (p : MixPreset) : ℝ × ℝ × ℝ × ℝ × ℝ × ℕ × ℕ :=
  (p.vocal_center_gain, p.drum_front_gain, p.drum_lfe_gain, p.other_front_bleed,
    p.rear_extra_delay_ms, p.fir_taps, p.decorr_stages)

/-- The clamp bounds of §4.3 as a predicate: `bass_lfe_gain ∈ [0.40, 1.0]`,
`bass_center_gain ∈ [0.50, 0.85]`, `other_height_gain ∈ [0.10, 0.35]`,
`drum_height_bleed ∈ [0.03, 0.15]`, `surround_delay_ms ∈ [8.0, 25.0]`,
`other_side_gain ∈ [0.40, 0.80]`, `other_rear_gain ∈ [0.25, 0.55]`,
`vocal_width_bleed ≤ 0.20`. -/
def MixPreset.in_bounds (p : MixPreset) : Prop :=
  0.40 ≤ p.bass_lfe_gain ∧ p.bass_lfe_gain ≤ 1.0 ∧
    0.50 ≤ p.bass_center_gain ∧ p.bass_center_gain ≤ 0.85 ∧
    0.10 ≤ p.other_height_gain ∧ p.other_height_gain ≤ 0.35 ∧
    0.03 ≤ p.drum_height_bleed ∧ p.drum_height_bleed ≤ 0.15 ∧
    8.0 ≤ p.surround_delay_ms ∧ p.surround_delay_ms ≤ 25.0 ∧
    0.40 ≤ p.other_side_gain ∧ p.other_side_gain ≤ 0.80 ∧
    0.25 ≤ p.other_rear_gain ∧ p.other_rear_gain ≤ 0.55 ∧
    p.vocal_width_bleed ≤ 0.20

/-! ## General lemmas -/

/-- `Real.tanh` is strictly monotone (`tanh b - tanh a = sinh (b - a) /
(cosh a * cosh b)`). -/
theorem tanh_lt_tanh_of_lt {a b : ℝ} (h : a < b) : Real.tanh a < Real.tanh b := by
  rw [Real.tanh_eq_sinh_div_cosh, Real.tanh_eq_sinh_div_cosh,
    div_lt_div_iff₀ (Real.cosh_pos a) (Real.cosh_pos b)]
  have hs : 0 < Real.sinh (b - a) := Real.sinh_pos_iff.mpr (by linarith)
  rw [Real.sinh_sub] at hs
  nlinarith [hs]

/-! ## C8: mid/side reconstruction -/

/-- **C8.** For every stereo buffer `x` with channels `(L, R)`, letting
`(mid, side) = mid_side x`, the reconstruction `(mid + side, mid - side)`
equals `(L, R)` exactly, sample for sample. -/
theorem mid_side_reconstructs (x : List (ℝ × ℝ)) :
    List.zipWith (fun m s => m + s) (mid_side (.stereo x)).1 (mid_side (.stereo x)).2
        = x.map Prod.fst ∧
      List.zipWith (fun m s => m - s) (mid_side (.stereo x)).1 (mid_side (.stereo x)).2
        = x.map Prod.snd := by
  constructor <;>
    · induction x with
      | nil => rfl
      | cons p xs ih =>
        simp only [mid_side, List.map_cons, List.zipWith_cons_cons, List.cons.injEq] at ih ⊢
        exact ⟨by ring, ih⟩

/-! ## C6: fields `adapt_preset` never adjusts -/

theorem adapt_bass_untouched (a : AnalysisResult) (p : MixPreset) :
    (adapt_bass a p).untouched = p.untouched := by
  unfold adapt_bass
  split_ifs <;> rfl

theorem adapt_centroid_untouched (a : AnalysisResult) (p : MixPreset) :
    (adapt_centroid a p).untouched = p.untouched := by
  unfold adapt_centroid
  split_ifs <;> rfl

theorem adapt_transient_untouched (a : AnalysisResult) (p : MixPreset) :
    (adapt_transient a p).untouched = p.untouched := by
  unfold adapt_transient
  split_ifs <;> rfl

theorem adapt_width_untouched (a : AnalysisResult) (p : MixPreset) :
    (adapt_width a p).untouched = p.untouched := by
  unfold adapt_width
  split_ifs <;> rfl

theorem adapt_dr_untouched (a : AnalysisResult) (p : MixPreset) :
    (adapt_dr a p).untouched = p.untouched := by
  unfold adapt_dr
  split_ifs <;> rfl

/-- **C6.** `adapt_preset` is a pure function of an (immutable) base value —
in this embedding leaving the base unmodified is purity by construction,
matching the source's `replace(base)` shallow copy — and every preset field
that no rule of §4.3 adjusts (`vocal_center_gain`, `drum_front_gain`,
`drum_lfe_gain`, `other_front_bleed`, `rear_extra_delay_ms`, `fir_taps`,
`decorr_stages`) is returned equal to the corresponding field of the
base. -/
theorem adapt_preset_untouched_fields (base : MixPreset) (analysis : AnalysisResult) :
    (adapt_preset base analysis).vocal_center_gain = base.vocal_center_gain ∧
      (adapt_preset base analysis).drum_front_gain = base.drum_front_gain ∧
      (adapt_preset base analysis).drum_lfe_gain = base.drum_lfe_gain ∧
      (adapt_preset base analysis).other_front_bleed = base.other_front_bleed ∧
      (adapt_preset base analysis).rear_extra_delay_ms = base.rear_extra_delay_ms ∧
      (adapt_preset base analysis).fir_taps = base.fir_taps ∧
      (adapt_preset base analysis).decorr_stages = base.decorr_stages := by
  have h : (adapt_preset base analysis).untouched = base.untouched := by
    unfold adapt_preset
    rw [adapt_dr_untouched, adapt_width_untouched, adapt_transient_untouched,
      adapt_centroid_untouched, adapt_bass_untouched]
  simp only [MixPreset.untouched, Prod.mk.injEq] at h
  exact ⟨h.1, h.2.1, h.2.2.1, h.2.2.2.1, h.2.2.2.2.1, h.2.2.2.2.2.1, h.2.2.2.2.2.2⟩

/-! ## C5: the clamp bounds of §4.3 -/

theorem adapt_bass_in_bounds (a : AnalysisResult) (p : MixPreset) (h : p.in_bounds) :
    (adapt_bass a p).in_bounds := by
  obtain ⟨h1, h2, h3, h4, h5, h6, h7, h8, h9, h10, h11, h12, h13, h14, h15⟩ := h
  unfold adapt_bass MixPreset.in_bounds
  split_ifs <;>
    refine ⟨?_, ?_, ?_, ?_, ?_, ?_, ?_, ?_, ?_, ?_, ?_, ?_, ?_, ?_, ?_⟩ <;>
    first
      | assumption
      | exact le_min_iff.mpr ⟨by linarith, by norm_num⟩
      | exact min_le_iff.mpr (Or.inr (by norm_num))
      | exact le_max_iff.mpr (Or.inr (by norm_num))
      | exact max_le_iff.mpr ⟨by linarith, by norm_num⟩

theorem adapt_centroid_in_bounds (a : AnalysisResult) (p : MixPreset) (h : p.in_bounds) :
    (adapt_centroid a p).in_bounds := by
  obtain ⟨h1, h2, h3, h4, h5, h6, h7, h8, h9, h10, h11, h12, h13, h14, h15⟩ := h
  unfold adapt_centroid MixPreset.in_bounds
  split_ifs <;>
    refine ⟨?_, ?_, ?_, ?_, ?_, ?_, ?_, ?_, ?_, ?_, ?_, ?_, ?_, ?_, ?_⟩ <;>
    first
      | assumption
      | exact le_min_iff.mpr ⟨by linarith, by norm_num⟩
      | exact min_le_iff.mpr (Or.inr (by norm_num))
      | exact le_max_iff.mpr (Or.inr (by norm_num))
      | exact max_le_iff.mpr ⟨by linarith, by norm_num⟩

theorem adapt_transient_in_bounds (a : AnalysisResult) (p : MixPreset) (h : p.in_bounds) :
    (adapt_transient a p).in_bounds := by
  obtain ⟨h1, h2, h3, h4, h5, h6, h7, h8, h9, h10, h11, h12, h13, h14, h15⟩ := h
  unfold adapt_transient MixPreset.in_bounds
  split_ifs <;>
    refine ⟨?_, ?_, ?_, ?_, ?_, ?_, ?_, ?_, ?_, ?_, ?_, ?_, ?_, ?_, ?_⟩ <;>
    first
      | assumption
      | exact le_min_iff.mpr ⟨by linarith, by norm_num⟩
      | exact min_le_iff.mpr (Or.inr (by norm_num))
      | exact le_max_iff.mpr (Or.inr (by norm_num))
      | exact max_le_iff.mpr ⟨by linarith, by norm_num⟩

theorem adapt_width_in_bounds (a : AnalysisResult) (p : MixPreset) (h : p.in_bounds) :
    (adapt_width a p).in_bounds := by
  obtain ⟨h1, h2, h3, h4, h5, h6, h7, h8, h9, h10, h11, h12, h13, h14, h15⟩ := h
  unfold adapt_width MixPreset.in_bounds
  split_ifs <;>
    refine ⟨?_, ?_, ?_, ?_, ?_, ?_, ?_, ?_, ?_, ?_, ?_, ?_, ?_, ?_, ?_⟩ <;>
    first
      | assumption
      | exact le_min_iff.mpr ⟨by linarith, by norm_num⟩
      | exact min_le_iff.mpr (Or.inr (by norm_num))
      | exact le_max_iff.mpr (Or.inr (by norm_num))
      | exact max_le_iff.mpr ⟨by linarith, by norm_num⟩

theorem adapt_dr_in_bounds (a : AnalysisResult) (p : MixPreset) (h : p.in_bounds) :
    (adapt_dr a p).in_bounds := by
  obtain ⟨h1, h2, h3, h4, h5, h6, h7, h8, h9, h10, h11, h12, h13, h14, h15⟩ := h
  unfold adapt_dr MixPreset.in_bounds
  split_ifs <;> exact ⟨h1, h2, h3, h4, h5, h6, h7, h8, h9, h10, h11, h12, h13, h14, h15⟩

/-- **C5 (amended).** As stated the claim fails for arbitrary base presets
(see `adapt_preset_escapes_bounds_cex`): a rule's `min` clamp enforces only
the upper bound and its `max` clamp only the lower one, so a base field
already outside the §4.3 interval can stay outside it after an adjustment.
For every base preset whose fields lie within the §4.3 clamp bounds, every
field of `adapt_preset base m` — including each field adjusted by one or
several stacked triggered rules — again lies within those bounds. -/
theorem adapt_preset_in_bounds (base : MixPreset) (analysis : AnalysisResult)
    (h : base.in_bounds) : (adapt_preset base analysis).in_bounds := by
  unfold adapt_preset
  exact adapt_dr_in_bounds _ _ (adapt_width_in_bounds _ _ (adapt_transient_in_bounds _ _
    (adapt_centroid_in_bounds _ _ (adapt_bass_in_bounds _ _ h))))

/-- Witness for C5: the `medium` preset lies in bounds, and so does its
adaptation under a bass-heavy measurement. -/
theorem adapt_preset_in_bounds_witness :
    (adapt_preset PRESET_MEDIUM ⟨2000, 0.5, 0.1, 0.3, 20, -20, ""⟩).in_bounds :=
  adapt_preset_in_bounds PRESET_MEDIUM ⟨2000, 0.5, 0.1, 0.3, 20, -20, ""⟩
    (by unfold PRESET_MEDIUM MixPreset.in_bounds; norm_num)

/-- **C5, counterexample.** With a base preset whose `bass_lfe_gain` is `0`
(nothing in the code rejects such a preset) and a bass-heavy measurement
(`bass_energy_ratio = 0.5 > 0.30` triggers the first rule), the adjusted
`bass_lfe_gain` is `min (0 + 0.10) 1.0 = 0.10`, outside the claimed
`[0.40, 1.0]` clamp interval. -/
theorem adapt_preset_escapes_bounds_cex :
    (0.30 : ℝ) < (⟨2000, 0.5, 0.1, 0.3, 20, -20, ""⟩ : AnalysisResult).bass_energy_ratio ∧
      (adapt_preset ({ bass_lfe_gain := 0 } : MixPreset)
          ⟨2000, 0.5, 0.1, 0.3, 20, -20, ""⟩).bass_lfe_gain < 0.40 := by
  constructor
  · norm_num
  · unfold adapt_preset adapt_dr adapt_width adapt_transient adapt_centroid adapt_bass
    norm_num

/-! ## C7: soft_clip -/

/-- **C7 (amended).** For every buffer `x` and threshold, `soft_clip` leaves
every sample with `|v| ≤ threshold` unchanged (so it is the identity when
`max |x| ≤ 0.95` at the mixer's threshold `0.95`), and maps every sample
with `|v| > threshold` to exactly
`sign v * (threshold + (1 - threshold) * tanh ((|v| - threshold) / (1 - threshold + 1e-9)))`
— the denominator carries the source's `1e-9` guard, which the claim's
formula omits (see `soft_clip_formula_cex`). -/
theorem soft_clip_characterisation (threshold : ℝ) :
    (∀ x : List ℝ, (∀ v ∈ x, |v| ≤ threshold) → soft_clip x threshold = x) ∧
      ∀ v : ℝ, threshold < |v| →
        soft_clip_sample threshold v =
          Real.sign v * (threshold + (1 - threshold) *
            Real.tanh ((|v| - threshold) / (1 - threshold + 1e-9))) := by
  constructor
  · intro x hx
    have he : ∀ v ∈ x, soft_clip_sample threshold v = v := by
      intro v hv
      unfold soft_clip_sample
      rw [if_neg (not_lt.mpr (hx v hv))]
    calc soft_clip x threshold = x.map id := List.map_congr_left he
      _ = x := List.map_id x
  · intro v hv
    unfold soft_clip_sample
    rw [if_pos hv]

/-- Witness for C7: the identity on a concrete sub-threshold buffer, and the
guarded formula at the concrete over-threshold sample `2`. -/
theorem soft_clip_characterisation_witness :
    soft_clip [0.5, -0.3] 0.95 = [0.5, -0.3] ∧
      soft_clip_sample 0.95 2 =
        Real.sign 2 * (0.95 + (1 - 0.95) *
          Real.tanh ((|(2 : ℝ)| - 0.95) / (1 - 0.95 + 1e-9))) := by
  refine ⟨(soft_clip_characterisation 0.95).1 [0.5, -0.3] ?_,
    (soft_clip_characterisation 0.95).2 2 (by rw [abs_two]; norm_num)⟩
  intro v hv
  simp only [List.mem_cons, List.not_mem_nil, or_false] at hv
  rcases hv with rfl | rfl <;> rw [abs_le] <;> norm_num

/-- **C7, counterexample.** At threshold `0.95` and sample `1.0` the claimed
formula divides the overshoot by `1 - threshold`, but the source divides by
`1 - threshold + 1e-9`; since `tanh` is strictly monotone the two values
differ, so `soft_clip` does not map the sample to the claimed value. -/
theorem soft_clip_formula_cex :
    soft_clip_sample 0.95 1 ≠
      Real.sign 1 * (0.95 + (1 - 0.95) * Real.tanh ((|(1 : ℝ)| - 0.95) / (1 - 0.95))) := by
  have ht : Real.tanh ((|(1 : ℝ)| - 0.95) / (1 - 0.95 + 1e-9)) <
      Real.tanh ((|(1 : ℝ)| - 0.95) / (1 - 0.95)) := by
    apply tanh_lt_tanh_of_lt
    rw [abs_one]
    norm_num
  unfold soft_clip_sample
  rw [if_pos (by rw [abs_one]; norm_num : (0.95 : ℝ) < |(1 : ℝ)|)]
  intro h
  have hs : Real.sign (1 : ℝ) = 1 := Real.sign_of_pos one_pos
  rw [hs, one_mul, one_mul] at h
  nlinarith [ht]

/-! ## Convolution lemmas and C3: crossover perfect reconstruction -/

theorem length_conv_full (x h : List ℝ) :
    (conv_full x h).length = x.length + h.length - 1 := by
  simp [conv_full]

theorem getElem_conv_full (x h : List ℝ) (n : ℕ) (hn : n < (conv_full x h).length) :
    (conv_full x h)[n] = ∑ k ∈ Finset.range (n + 1), x.getD k 0 * h.getD (n - k) 0 := by
  simp [conv_full]

theorem length_fir_apply (fir x : List ℝ) (hf : fir ≠ []) :
    (fir_apply fir x).length = x.length := by
  have h1 : 1 ≤ fir.length := List.length_pos.mpr hf
  simp only [fir_apply, List.length_take, length_conv_full]
  omega

theorem getElem_fir_apply (fir x : List ℝ) (n : ℕ) (hn : n < (fir_apply fir x).length) :
    (fir_apply fir x)[n] = ∑ k ∈ Finset.range (n + 1), x.getD k 0 * fir.getD (n - k) 0 := by
  have hn2 : n < (conv_full x fir).length := by
    have := hn
    simp only [fir_apply, List.length_take] at this
    omega
  simp only [fir_apply]
  rw [List.getElem_take]
  exact getElem_conv_full x fir n hn2

theorem length_crossover_hp (c : Crossover) : c.hp.length = c.lp.length := by
  simp [Crossover.hp]

theorem getD_map_neg (l : List ℝ) (j : ℕ) :
    (l.map fun t => -t).getD j 0 = -l.getD j 0 := by
  induction l generalizing j with
  | nil => simp
  | cons a l ih =>
    cases j with
    | zero => simp
    | succ j =>
      simp only [List.map_cons, List.getD_cons_succ]
      exact ih j

theorem getD_set_self (l : List ℝ) (i : ℕ) (v : ℝ) (h : i < l.length) :
    (l.set i v).getD i 0 = v := by
  induction l generalizing i with
  | nil => simp at h
  | cons a l ih =>
    cases i with
    | zero => simp
    | succ i => simpa using ih i (by simpa using h)

theorem getD_set_ne (l : List ℝ) (i j : ℕ) (v : ℝ) (h : j ≠ i) :
    (l.set i v).getD j 0 = l.getD j 0 := by
  induction l generalizing i j with
  | nil => simp
  | cons a l ih =>
    cases i with
    | zero =>
      cases j with
      | zero => exact absurd rfl h
      | succ j => simp
    | succ i =>
      cases j with
      | zero => simp
      | succ j => simpa using ih i j (fun hh => h (by omega))

/-- Spectral inversion makes the tap-wise sum of lowpass and highpass a unit
impulse at the centre tap. -/
theorem lp_add_hp_getD (c : Crossover) (hgd : c.group_delay < c.lp.length) (j : ℕ) :
    c.lp.getD j 0 + c.hp.getD j 0 = if j = c.group_delay then 1 else 0 := by
  unfold Crossover.hp
  by_cases hj : j = c.group_delay
  · subst hj
    rw [getD_set_self _ _ _ (by simpa using hgd), if_pos rfl]
    ring
  · rw [getD_set_ne _ _ _ _ hj, getD_map_neg, if_neg hj]
    ring

/-- Summing the two crossover outputs reconstructs the input delayed by the
group delay (leading zeros, tail truncated), exactly. -/
theorem crossover_reconstruction (c : Crossover) (hlp : c.lp ≠ [])
    (hgd : c.group_delay < c.lp.length) (x : List ℝ) :
    List.zipWith (· + ·) (c.lowpass x) (c.highpass x)
      = (List.replicate c.group_delay 0 ++ x).take x.length := by
  have hhp : c.hp ≠ [] := by
    intro hnil
    apply hlp
    have := length_crossover_hp c
    rw [hnil] at this
    exact List.length_eq_zero.mp this.symm
  apply List.ext_getElem
  · simp only [List.length_zipWith, Crossover.lowpass, Crossover.highpass,
      length_fir_apply _ _ hlp, length_fir_apply _ _ hhp, List.length_take,
      List.length_append, List.length_replicate]
    omega
  · intro n h1 h2
    have hnx : n < x.length := by
      simpa using h2
    rw [List.getElem_zipWith]
    simp only [Crossover.lowpass, Crossover.highpass]
    rw [getElem_fir_apply c.lp x n (by rwa [length_fir_apply _ _ hlp]),
      getElem_fir_apply c.hp x n (by rwa [length_fir_apply _ _ hhp]),
      ← Finset.sum_add_distrib]
    have hcong : ∀ k ∈ Finset.range (n + 1),
        x.getD k 0 * c.lp.getD (n - k) 0 + x.getD k 0 * c.hp.getD (n - k) 0
          = x.getD k 0 * (if n - k = c.group_delay then 1 else 0) := by
      intro k _
      rw [← mul_add, lp_add_hp_getD c hgd]
    rw [Finset.sum_congr rfl hcong]
    rw [List.getElem_take]
    by_cases hcase : c.group_delay ≤ n
    · rw [Finset.sum_eq_single (n - c.group_delay)]
      · rw [if_pos (by omega), mul_one,
          List.getElem_append_right (by simpa using hcase)]
        simp only [List.length_replicate]
        exact List.getD_eq_getElem x 0 (by omega)
      · intro k hk hkne
        rw [if_neg (by rw [Finset.mem_range] at hk; omega), mul_zero]
      · intro hnotmem
        exact absurd (Finset.mem_range.mpr (by omega)) hnotmem
    · rw [List.getElem_append_left (by simpa using (by omega : n < c.group_delay)),
        List.getElem_replicate]
      apply Finset.sum_eq_zero
      intro k hk
      rw [Finset.mem_range] at hk
      rw [if_neg (by omega), mul_zero]

/-- **C3.** For every input signal (mono, or per-channel multichannel) and
every crossover built from any firwin design `lp` (hence from any cutoff in
`(0, sample_rate/2)`) with `num_taps ≥ 1` taps, the sample-wise sum
`lowpass x + highpass x` equals `x` shifted right by
`group_delay = (num_taps - 1) / 2` samples (after the source's odd
adjustment of `num_taps`), leading samples zero-filled and the tail
truncated to the input length.  The equality is exact in real arithmetic,
hence well within the claimed `1e-9` RMS error. -/
theorem crossover_sum_is_delayed_input (num_taps : ℕ) (lp : List ℝ)
    (hnt : 1 ≤ num_taps) (hlen : lp.length = oddify num_taps) (x : List ℝ) :
    (List.zipWith (· + ·) ((Crossover.ofFirwin lp num_taps).lowpass x)
        ((Crossover.ofFirwin lp num_taps).highpass x)
      = (List.replicate (Crossover.ofFirwin lp num_taps).group_delay 0 ++ x).take x.length) ∧
      ∀ chans : List (List ℝ),
        List.zipWith (List.zipWith (· + ·))
            (fir_apply_multi (Crossover.ofFirwin lp num_taps).lp chans)
            (fir_apply_multi (Crossover.ofFirwin lp num_taps).hp chans)
          = chans.map fun ch =>
              (List.replicate (Crossover.ofFirwin lp num_taps).group_delay 0 ++ ch).take
                ch.length := by
  have hodd : 1 ≤ oddify num_taps := by
    unfold oddify
    split_ifs <;> omega
  have hgd : (Crossover.ofFirwin lp num_taps).group_delay
      < (Crossover.ofFirwin lp num_taps).lp.length := by
    simp only [Crossover.ofFirwin]
    rw [hlen]
    omega
  have hlp : (Crossover.ofFirwin lp num_taps).lp ≠ [] := by
    simp only [Crossover.ofFirwin]
    intro hnil
    rw [hnil] at hlen
    simp at hlen
    omega
  refine ⟨crossover_reconstruction _ hlp hgd x, ?_⟩
  intro chans
  induction chans with
  | nil => rfl
  | cons ch chs ih =>
    simp only [fir_apply_multi, List.map_cons, List.zipWith_cons_cons, List.cons.injEq]
    exact ⟨crossover_reconstruction _ hlp hgd ch, by simpa [fir_apply_multi] using ih⟩

/-- Witness for C3 at a concrete three-tap crossover and a concrete input. -/
theorem crossover_sum_is_delayed_input_witness :
    (1 ≤ 3 ∧ ([(0.2 : ℝ), 0.6, 0.2] : List ℝ).length = oddify 3) ∧
      List.zipWith (· + ·) ((Crossover.ofFirwin [(0.2 : ℝ), 0.6, 0.2] 3).lowpass [(1 : ℝ), 2])
          ((Crossover.ofFirwin [(0.2 : ℝ), 0.6, 0.2] 3).highpass [(1 : ℝ), 2])
        = (List.replicate (Crossover.ofFirwin [(0.2 : ℝ), 0.6, 0.2] 3).group_delay 0
            ++ [(1 : ℝ), 2]).take ([(1 : ℝ), 2] : List ℝ).length := by
  refine ⟨⟨by norm_num, by norm_num [oddify]⟩, ?_⟩
  exact (crossover_sum_is_delayed_input 3 [0.2, 0.6, 0.2] (by norm_num)
    (by norm_num [oddify]) [1, 2]).1

/-! ## Length preservation through the mixer pipeline -/

theorem length_gain (x : List ℝ) (g : ℝ) : (gain x g).length = x.length := by
  simp [gain]

theorem length_biquad_df2t (c : Biquad) (s : ℝ × ℝ) (x : List ℝ) :
    (biquad_df2t c s x).length = x.length := by
  induction x generalizing s with
  | nil => obtain ⟨z1, z2⟩ := s; rfl
  | cons v xs ih =>
    obtain ⟨z1, z2⟩ := s
    simp only [biquad_df2t, List.length_cons]
    rw [ih]

theorem length_sosfilt (sos : List Biquad) (x : List ℝ) :
    (sosfilt sos x).length = x.length := by
  induction sos generalizing x with
  | nil => rfl
  | cons c cs ih =>
    rw [show sosfilt (c :: cs) x = sosfilt cs (biquad_df2t c (0, 0) x) from rfl, ih,
      length_biquad_df2t]

theorem length_process_blended (d : Decorrelator) (x : List ℝ) (b : ℝ) :
    (d.process_blended x b).length = x.length := by
  simp [Decorrelator.process_blended, Decorrelator.process, length_sosfilt]

theorem length_apply_delay (x : List ℝ) (ms : ℝ) (sr : ℕ) :
    (apply_delay x ms sr).length = x.length := by
  simp only [apply_delay]
  split_ifs
  · rfl
  · simp

theorem length_lowpass (c : Crossover) (x : List ℝ) (h : c.lp ≠ []) :
    (c.lowpass x).length = x.length :=
  length_fir_apply _ _ h

theorem crossover_hp_ne_nil (c : Crossover) (h : c.lp ≠ []) : c.hp ≠ [] := by
  intro hnil
  apply h
  have hlen := length_crossover_hp c
  rw [hnil] at hlen
  exact List.length_eq_zero.mp hlen.symm

theorem length_highpass (c : Crossover) (x : List ℝ) (h : c.lp ≠ []) :
    (c.highpass x).length = x.length :=
  length_fir_apply _ _ (crossover_hp_ne_nil c h)

theorem length_zeros714 (n : ℕ) : (zeros714 n).length = n := by
  simp [zeros714]

theorem add_into_eq_some (out : Buf714) (ch : Fin 12) (sig : List ℝ)
    (h : sig.length = out.length) :
    add_into out ch sig
      = some (List.zipWith (fun row v i => if i = ch then row i + v else row i) out sig) := by
  simp [add_into, h]

theorem route_vocals_length (stems : StemData) (preset : MixPreset) (xo_lfe : Crossover)
    (dSL dSR : Decorrelator) (output : Buf714) (hlp : xo_lfe.lp ≠ [])
    (hout : output.length = stems.vocals.length) :
    ∃ out2, route_vocals stems preset xo_lfe dSL dSR output = some out2 ∧
      out2.length = stems.vocals.length := by
  simp [route_vocals, add_into_eq_some, mid_side, length_process_blended, length_gain,
    length_highpass, hlp, hout]

theorem route_bass_length (stems : StemData) (preset : MixPreset) (xo_lfe : Crossover)
    (output : Buf714) (hlp : xo_lfe.lp ≠ [])
    (hb : stems.bass.length = stems.vocals.length)
    (hout : output.length = stems.vocals.length) :
    ∃ out2, route_bass stems preset xo_lfe output = some out2 ∧
      out2.length = stems.vocals.length := by
  simp [route_bass, add_into_eq_some, to_mono, length_gain, length_lowpass,
    length_highpass, hlp, hb, hout]

theorem route_drums_length (stems : StemData) (preset : MixPreset)
    (xo_lfe xo_height : Crossover) (dTFL dTFR : Decorrelator) (output : Buf714)
    (hlp : xo_lfe.lp ≠ []) (hhp : xo_height.lp ≠ [])
    (hd : stems.drums.length = stems.vocals.length)
    (hout : output.length = stems.vocals.length) :
    ∃ out2, route_drums stems preset xo_lfe xo_height dTFL dTFR output = some out2 ∧
      out2.length = stems.vocals.length := by
  unfold route_drums
  split_ifs <;>
    simp [add_into_eq_some, to_mono, get_left, get_right, length_gain, length_lowpass,
      length_highpass, length_process_blended, hlp, hhp, hd, hout]

theorem route_other_length (stems : StemData) (preset : MixPreset)
    (xo_lfe xo_height : Crossover) (dSL dSR dBL dBR dTFL dTFR dTBL dTBR : Decorrelator)
    (output : Buf714) (hlp : xo_lfe.lp ≠ []) (hhp : xo_height.lp ≠ [])
    (ho : stems.other.length = stems.vocals.length)
    (hout : output.length = stems.vocals.length) :
    ∃ out2, route_other stems preset xo_lfe xo_height dSL dSR dBL dBR dTFL dTFR dTBL dTBR
        output = some out2 ∧ out2.length = stems.vocals.length := by
  unfold route_other
  split_ifs <;>
    simp [add_into_eq_some, to_mono, get_left, get_right, length_gain, length_lowpass,
      length_highpass, length_process_blended, length_apply_delay, hlp, hhp, ho, hout]

/-- One `output[:, ch] += sig` step fails (numpy raises) when the
contribution's length differs from the output's. -/
theorem add_into_eq_none (out : Buf714) (ch : Fin 12) (sig : List ℝ)
    (h : sig.length ≠ out.length) : add_into out ch sig = none := by
  simp [add_into, h]

/-- The routing phase succeeds and yields a buffer of the vocals stem's
length whenever the four stems share one length (and the two firwin designs
are nonempty, which `oddify num_taps ≥ 1` taps always are). -/
theorem route_all_length (stems : StemData) (preset : MixPreset)
    (lp_lfe lp_height : List ℝ) (bank : Fin 8 → List Biquad)
    (hlp : lp_lfe ≠ []) (hhp : lp_height ≠ [])
    (hd : stems.drums.length = stems.vocals.length)
    (hb : stems.bass.length = stems.vocals.length)
    (ho : stems.other.length = stems.vocals.length) :
    ∃ out, route_all stems preset lp_lfe lp_height bank = some out ∧
      out.length = stems.vocals.length := by
  have hlp2 : (Crossover.ofFirwin lp_lfe preset.fir_taps).lp ≠ [] := hlp
  have hhp2 : (Crossover.ofFirwin lp_height preset.fir_taps).lp ≠ [] := hhp
  simp only [route_all]
  obtain ⟨o1, e1, l1⟩ := route_vocals_length stems preset _ ⟨bank 0⟩ ⟨bank 1⟩ _ hlp2
    (length_zeros714 _)
  rw [e1]
  simp only [Option.bind_eq_bind', Option.some_bind']
  obtain ⟨o2, e2, l2⟩ := route_bass_length stems preset _ o1 hlp2 hb l1
  rw [e2]
  simp only [Option.bind_eq_bind', Option.some_bind']
  obtain ⟨o3, e3, l3⟩ := route_drums_length stems preset _ _ ⟨bank 4⟩ ⟨bank 5⟩ o2 hlp2 hhp2
    hd l2
  rw [e3]
  simp only [Option.bind_eq_bind', Option.some_bind']
  obtain ⟨o4, e4, l4⟩ := route_other_length stems preset _ _ ⟨bank 0⟩ ⟨bank 1⟩ ⟨bank 2⟩
    ⟨bank 3⟩ ⟨bank 4⟩ ⟨bank 5⟩ ⟨bank 6⟩ ⟨bank 7⟩ o3 hlp2 hhp2 ho l3
  rw [e4]
  simp only [Option.bind_eq_bind', Option.some_bind']
  exact ⟨o4, rfl, l4⟩

/-- The mixer performs no length matching: a bass stem whose length differs
from the vocals stem's makes the routing fail at the first bass addition
(numpy raises) — the stem is not padded or trimmed. -/
theorem route_all_none_of_bass_mismatch (stems : StemData) (preset : MixPreset)
    (lp_lfe lp_height : List ℝ) (bank : Fin 8 → List Biquad)
    (hlp : lp_lfe ≠ []) (hb : stems.bass.length ≠ stems.vocals.length) :
    route_all stems preset lp_lfe lp_height bank = none := by
  have hlp2 : (Crossover.ofFirwin lp_lfe preset.fir_taps).lp ≠ [] := hlp
  simp only [route_all]
  obtain ⟨o1, e1, l1⟩ := route_vocals_length stems preset _ ⟨bank 0⟩ ⟨bank 1⟩ _ hlp2
    (length_zeros714 _)
  rw [e1]
  simp only [Option.bind_eq_bind', Option.some_bind']
  have hbass : route_bass stems preset (Crossover.ofFirwin lp_lfe preset.fir_taps) o1
      = none := by
    simp only [route_bass]
    rw [add_into_eq_none _ _ _ (by
      rw [length_gain, length_lowpass _ _ hlp2, l1]
      simpa [to_mono] using hb)]
    rfl
  rw [hbass]
  rfl

/-! ## Finalization: soft clip and peak normalization -/

theorem length_soft_clip_buf {C : ℕ} (x : List (Fin C → ℝ)) (t : ℝ) :
    (soft_clip_buf x t).length = x.length := by
  simp [soft_clip_buf]

theorem db_to_linear_pos (t : ℝ) : 0 < db_to_linear t :=
  Real.rpow_pos_of_pos (by norm_num) _

theorem buf_peak_nonneg {C : ℕ} (x : List (Fin C → ℝ)) : 0 ≤ buf_peak x := by
  unfold buf_peak
  induction x with
  | nil => exact le_refl 0
  | cons row rows ih => exact le_max_of_le_right ih

theorem row_abs_max_scale {C : ℕ} (row : Fin C → ℝ) (c : ℝ) (hc : 0 ≤ c) :
    (List.finRange C).foldr (fun i a => max |row i * c| a) 0
      = c * (List.finRange C).foldr (fun i a => max |row i| a) 0 := by
  induction List.finRange C with
  | nil => simp
  | cons i is ih =>
    simp only [List.foldr_cons]
    rw [ih, abs_mul, abs_of_nonneg hc, mul_comm |row i| c, ← mul_max_of_nonneg _ _ hc]

theorem buf_peak_scale {C : ℕ} (x : List (Fin C → ℝ)) (c : ℝ) (hc : 0 ≤ c) :
    buf_peak (x.map (fun row i => row i * c)) = c * buf_peak x := by
  unfold buf_peak
  induction x with
  | nil => simp
  | cons row rows ih =>
    simp only [List.map_cons, List.foldr_cons]
    rw [ih, row_abs_max_scale row c hc, ← mul_max_of_nonneg _ _ hc]

/-- A nonempty buffer is always normalized (numpy's `max` succeeds). -/
theorem peak_normalize_some {C : ℕ} (x : List (Fin C → ℝ)) (t : ℝ) (hx : x ≠ []) :
    ∃ o, peak_normalize x t = some o ∧ o.length = x.length := by
  unfold peak_normalize
  rw [if_neg hx]
  split_ifs
  · exact ⟨x, rfl, rfl⟩
  · exact ⟨_, rfl, by simp⟩

/-- Whatever `peak_normalize` returns has peak at most
`10^(target/20) + 1e-9`: the silence branch returns a sub-`1e-10` buffer,
the scaling branch normalizes the peak to the target exactly. -/
theorem peak_normalize_peak_le {C : ℕ} (x : List (Fin C → ℝ)) (t : ℝ)
    (o : List (Fin C → ℝ)) (h : peak_normalize x t = some o) :
    buf_peak o ≤ db_to_linear t + 1e-9 := by
  have hpos : 0 < db_to_linear t := db_to_linear_pos t
  have heps : (1e-10 : ℝ) ≤ 1e-9 := by norm_num
  unfold peak_normalize at h
  split_ifs at h with h1 h2
  · obtain rfl : x = o := by injection h
    linarith
  · obtain rfl : x.map (fun row i => row i * (db_to_linear t / buf_peak x)) = o := by
      injection h
    have hpk : (1e-10 : ℝ) ≤ buf_peak x := not_lt.mp h2
    have hpkpos : 0 < buf_peak x := lt_of_lt_of_le (by norm_num) hpk
    rw [buf_peak_scale _ _ (div_nonneg hpos.le hpkpos.le), div_mul_cancel₀ _ hpkpos.ne']
    linarith

/-- The full mixer succeeds on nonempty equal-length stems, yielding the
vocals-length buffer and the stems' sample rate. -/
theorem mix_to_714_some (stems : StemData) (preset : MixPreset)
    (lp_lfe lp_height : List ℝ) (bank : Fin 8 → List Biquad)
    (hlp : lp_lfe ≠ []) (hhp : lp_height ≠ [])
    (hd : stems.drums.length = stems.vocals.length)
    (hb : stems.bass.length = stems.vocals.length)
    (ho : stems.other.length = stems.vocals.length)
    (hv : stems.vocals ≠ []) :
    ∃ out, mix_to_714 stems preset lp_lfe lp_height bank = some (out, stems.sample_rate) ∧
      out.length = stems.vocals.length := by
  obtain ⟨buf, hbuf, hlen⟩ := route_all_length stems preset lp_lfe lp_height bank
    hlp hhp hd hb ho
  unfold mix_to_714
  rw [hbuf, Option.some_bind']
  obtain ⟨o, ho2, hlen2⟩ :=
    peak_normalize_some (soft_clip_buf buf 0.95) preset.target_peak_dbfs (by
      intro hnil
      apply hv
      apply List.length_eq_zero.mp
      have := congrArg List.length hnil
      rw [length_soft_clip_buf, hlen] at this
      simpa using this)
  rw [ho2, Option.map_some']
  exact ⟨o, rfl, by rw [hlen2, length_soft_clip_buf, hlen]⟩

/-! ## C10: no internal length matching, no reachable error path -/

/-- **C10.** Under the precondition that all four stems share one length,
every `output[:, ch] += …` addition of the routing phase is well-shaped and
no error path is reachable: the routing phase returns a buffer whose frame
count is taken solely from the vocals stem (`zeros714 stems.vocals.length`
in `route_all`, `n_samples = stems.vocals.shape[0]` in the source).  The
mixer itself never pads or trims a stem — `match_lengths` is imported but
never called on this path, and in this embedding an off-length stem makes
the corresponding `add_into` return `none` rather than be padded; the
equal-length invariant is established by the separator. -/
theorem mixer_routing_no_error (stems : StemData) (preset : MixPreset)
    (lp_lfe lp_height : List ℝ) (bank : Fin 8 → List Biquad)
    (hlp : lp_lfe ≠ []) (hhp : lp_height ≠ [])
    (hd : stems.drums.length = stems.vocals.length)
    (hb : stems.bass.length = stems.vocals.length)
    (ho : stems.other.length = stems.vocals.length) :
    ∃ out, route_all stems preset lp_lfe lp_height bank = some out ∧
      out.length = stems.vocals.length :=
  route_all_length stems preset lp_lfe lp_height bank hlp hhp hd hb ho

/-- Witness for C10 at one-sample silent stems, the `medium` preset, a
one-tap crossover design and empty allpass cascades. -/
theorem mixer_routing_no_error_witness :
    ∃ out, route_all ⟨[((0 : ℝ), (0 : ℝ))], [(0, 0)], [(0, 0)], [(0, 0)], 48000⟩
        { fir_taps := 1, decorr_stages := 0 } [1] [1]
        (fun _ => []) = some out ∧ out.length = 1 := by
  obtain ⟨out, h1, h2⟩ := mixer_routing_no_error
    ⟨[((0 : ℝ), (0 : ℝ))], [(0, 0)], [(0, 0)], [(0, 0)], 48000⟩
    { fir_taps := 1, decorr_stages := 0 } [1] [1] (fun _ => [])
    (by simp) (by simp) rfl rfl rfl
  exact ⟨out, h1, by simpa using h2⟩

/-! ## C1: shape and sample rate of `mix_to_714` -/

/-- **C1 (amended).** For every stem set of four equal-length stereo stems
with at least one sample, and every preset, `mix_to_714` returns a pair
`(output, sample_rate)` where `output` has shape `(N, 12)` with `N` the
vocals stem's sample count and the returned rate is the stems' rate.  As
stated — for *every* stem set — the claim fails at zero-length stems:
`np.max(np.abs(x))` inside the final `peak_normalize` raises `ValueError`
on the empty `(0, 12)` buffer (see `mix_to_714_empty_cex`), so the
nonemptiness precondition is required. -/
theorem mix_to_714_shape (stems : StemData) (preset : MixPreset)
    (lp_lfe lp_height : List ℝ) (bank : Fin 8 → List Biquad)
    (hlp : lp_lfe ≠ []) (hhp : lp_height ≠ [])
    (hd : stems.drums.length = stems.vocals.length)
    (hb : stems.bass.length = stems.vocals.length)
    (ho : stems.other.length = stems.vocals.length)
    (hv : stems.vocals ≠ []) :
    ∃ out, mix_to_714 stems preset lp_lfe lp_height bank = some (out, stems.sample_rate) ∧
      out.length = stems.vocals.length :=
  mix_to_714_some stems preset lp_lfe lp_height bank hlp hhp hd hb ho hv

/-- Witness for C1 at one-sample silent stems. -/
theorem mix_to_714_shape_witness :
    ∃ out, mix_to_714 ⟨[((0 : ℝ), (0 : ℝ))], [(0, 0)], [(0, 0)], [(0, 0)], 48000⟩
        { fir_taps := 1, decorr_stages := 0 } [1] [1]
        (fun _ => []) = some (out, 48000) ∧ out.length = 1 := by
  obtain ⟨out, h1, h2⟩ := mix_to_714_shape
    ⟨[((0 : ℝ), (0 : ℝ))], [(0, 0)], [(0, 0)], [(0, 0)], 48000⟩
    { fir_taps := 1, decorr_stages := 0 } [1] [1] (fun _ => [])
    (by simp) (by simp) rfl rfl rfl (by simp)
  exact ⟨out, h1, by simpa using h2⟩

/-- **C1, counterexample.** On four zero-length stems `mix_to_714` does not
return a `(0, 12)` buffer: the routing phase produces the empty buffer, and
`peak_normalize` then hits numpy's `ValueError` (`np.max` of a zero-size
array), modelled as `none`. -/
theorem mix_to_714_empty_cex :
    mix_to_714 ⟨[], [], [], [], 48000⟩ { fir_taps := 1, decorr_stages := 0 } [1] [1]
      (fun _ => []) = none := by
  obtain ⟨out, h1, h2⟩ := route_all_length ⟨[], [], [], [], 48000⟩
    { fir_taps := 1, decorr_stages := 0 } [1] [1] (fun _ => [])
    (by simp) (by simp) rfl rfl rfl
  have hnil : out = [] := List.length_eq_zero.mp (by simpa using h2)
  subst hnil
  unfold mix_to_714
  rw [h1, Option.some_bind']
  simp [soft_clip_buf, peak_normalize]

/-! ## C2: the peak bound of the returned mix -/

/-- **C2.** For every stem set and preset, whenever `mix_to_714` returns a
buffer, its maximum absolute sample value is at most
`10^(target_peak_dbfs / 20) + 1e-9` — including the case of all-silent
(nonempty) stems, where `peak_normalize` returns its input unchanged
because the peak is below `1e-10` (that sub-`1e-10` peak is below the bound
as well). -/
theorem mix_to_714_peak_bound (stems : StemData) (preset : MixPreset)
    (lp_lfe lp_height : List ℝ) (bank : Fin 8 → List Biquad) (out : Buf714) (sr2 : ℕ)
    (h : mix_to_714 stems preset lp_lfe lp_height bank = some (out, sr2)) :
    buf_peak out ≤ db_to_linear preset.target_peak_dbfs + 1e-9 := by
  unfold mix_to_714 at h
  cases hro : route_all stems preset lp_lfe lp_height bank with
  | none => rw [hro] at h; simp at h
  | some buf =>
    rw [hro, Option.some_bind'] at h
    cases hpn : peak_normalize (soft_clip_buf buf 0.95) preset.target_peak_dbfs with
    | none => rw [hpn] at h; simp at h
    | some o =>
      rw [hpn, Option.map_some'] at h
      simp only [Option.some.injEq, Prod.mk.injEq] at h
      obtain ⟨rfl, rfl⟩ := h
      exact peak_normalize_peak_le _ _ _ hpn

/-- Witness for C2: all-silent one-sample stems at the `medium` preset (the
silence branch of `peak_normalize`). -/
theorem mix_to_714_peak_bound_witness :
    ∃ p : Buf714 × ℕ,
      mix_to_714 ⟨[((0 : ℝ), (0 : ℝ))], [(0, 0)], [(0, 0)], [(0, 0)], 48000⟩
          { fir_taps := 1, decorr_stages := 0 } [1] [1]
          (fun _ => []) = some p ∧
        buf_peak p.1
          ≤ db_to_linear ({ fir_taps := 1, decorr_stages := 0 } : MixPreset).target_peak_dbfs
            + 1e-9 := by
  obtain ⟨out, h1, _⟩ := mix_to_714_some
    ⟨[((0 : ℝ), (0 : ℝ))], [(0, 0)], [(0, 0)], [(0, 0)], 48000⟩
    { fir_taps := 1, decorr_stages := 0 } [1] [1] (fun _ => [])
    (by simp) (by simp) rfl rfl rfl (by simp)
  exact ⟨(out, 48000), h1,
    mix_to_714_peak_bound _ { fir_taps := 1, decorr_stages := 0 } [1] [1] (fun _ => [])
      out 48000 h1⟩

/-! ## C4: the 7.1.4 → 5.1 downmix -/

/-- **C4 (amended).** For every *nonempty* 12-channel buffer of shape
`(N, 12)`, `downmix_714_to_51` returns a buffer of shape `(N, 6)` equal to
the fixed ITU-R BS.775 linear combination — `FL_51 = FL + 0.707·SL +
0.5·BL + 0.5·TFL + 0.35·TBL`, `FR_51` mirrored, `FC_51 = FC`,
`LFE_51 = LFE`, `SL_51 = SL + 0.707·BL + 0.5·TBL` (in particular `TFL`
does not contribute to `SL_51`), `SR_51` mirrored — followed by peak
normalization to `-1.0` dBFS; the combination below is written from the
claim's text over the raw §3 channel indices.  At `N = 0` the claim as
stated fails: `np.max` inside `peak_normalize` raises on the empty buffer
(see `downmix_714_to_51_empty_cex`). -/
theorem downmix_714_to_51_itur (audio : Buf714) (h : audio ≠ []) :
    ∃ out, downmix_714_to_51 audio = some out ∧ out.length = audio.length ∧
      downmix_714_to_51 audio
        = peak_normalize
            (audio.map fun r =>
              ![r 0 + 0.707 * r 6 + 0.5 * r 4 + 0.5 * r 8 + 0.35 * r 10,
                r 1 + 0.707 * r 7 + 0.5 * r 5 + 0.5 * r 9 + 0.35 * r 11,
                r 2,
                r 3,
                r 6 + 0.707 * r 4 + 0.5 * r 10,
                r 7 + 0.707 * r 5 + 0.5 * r 11])
            (-1.0) := by
  have heq : downmix_714_to_51 audio
      = peak_normalize
          (audio.map fun r =>
            ![r 0 + 0.707 * r 6 + 0.5 * r 4 + 0.5 * r 8 + 0.35 * r 10,
              r 1 + 0.707 * r 7 + 0.5 * r 5 + 0.5 * r 9 + 0.35 * r 11,
              r 2,
              r 3,
              r 6 + 0.707 * r 4 + 0.5 * r 10,
              r 7 + 0.707 * r 5 + 0.5 * r 11])
          (-1.0) := by
    unfold downmix_714_to_51
    congr 1
    apply List.map_congr_left
    intro r _
    funext i
    fin_cases i <;>
      norm_num [CH_FL, CH_FR, CH_FC, CH_LFE, CH_BL, CH_BR, CH_SL, CH_SR, CH_TFL, CH_TFR,
        CH_TBL, CH_TBR]
  obtain ⟨out, ho, hl⟩ := peak_normalize_some
    (audio.map fun r =>
      ![r CH_FL + 0.707 * r CH_SL + 0.500 * r CH_BL + 0.500 * r CH_TFL + 0.350 * r CH_TBL,
        r CH_FR + 0.707 * r CH_SR + 0.500 * r CH_BR + 0.500 * r CH_TFR + 0.350 * r CH_TBR,
        r CH_FC,
        r CH_LFE,
        r CH_SL + 0.707 * r CH_BL + 0.500 * r CH_TBL,
        r CH_SR + 0.707 * r CH_BR + 0.500 * r CH_TBR])
    (-1.0) (fun hnil => h (List.map_eq_nil_iff.mp hnil))
  exact ⟨out, ho, by rw [List.length_map] at hl; exact hl, heq⟩

/-- Witness for C4 at the one-frame buffer whose every channel is `1`. -/
theorem downmix_714_to_51_itur_witness :
    ∃ out, downmix_714_to_51 [fun _ => (1 : ℝ)] = some out ∧
      out.length = ([fun _ => (1 : ℝ)] : Buf714).length ∧
      downmix_714_to_51 [fun _ => (1 : ℝ)]
        = peak_normalize
            (([fun _ => (1 : ℝ)] : Buf714).map fun r =>
              ![r 0 + 0.707 * r 6 + 0.5 * r 4 + 0.5 * r 8 + 0.35 * r 10,
                r 1 + 0.707 * r 7 + 0.5 * r 5 + 0.5 * r 9 + 0.35 * r 11,
                r 2,
                r 3,
                r 6 + 0.707 * r 4 + 0.5 * r 10,
                r 7 + 0.707 * r 5 + 0.5 * r 11])
            (-1.0) :=
  downmix_714_to_51_itur [fun _ => (1 : ℝ)] (by simp)

/-- **C4, counterexample.** On the empty `(0, 12)` buffer the downmix does
not return a `(0, 6)` buffer: `np.max` in `peak_normalize` raises
(`ValueError` on a zero-size reduction), modelled as `none`. -/
theorem downmix_714_to_51_empty_cex : downmix_714_to_51 [] = none := by
  simp [downmix_714_to_51, peak_normalize]

/-! ## C9: `analyse` on degenerate inputs -/

/-- **C9 (amended).** The fewer-than-2-frames defaults
(`transient_density = 0.5`, `dynamic_range_db = 20.0`) apply to *nonempty*
mono or stereo buffers shorter than two 10 ms frames (960 samples at
48 kHz), for any stft and correlation backends: `analyse` returns a
measurement record without error.  On a zero-length buffer (mono or
stereo), however, the claim as stated fails: `nperseg = min(4096, 0) = 0`
and `scipy.signal.stft` rejects it (`ValueError`, its `noverlap < nperseg`
validation), so `analyse` raises instead of returning defaults (see
`analyse_empty_cex`). -/
theorem analyse_short_input_defaults (stftFn : List ℝ → ℕ → ℕ → Stft)
    (corrFn : List ℝ → List ℝ → ℝ) (audio : Aud) (h1 : 1 ≤ audio.length)
    (h2 : audio.length < 960) :
    ∃ r, analyse stftFn corrFn audio 48000 = .ok r ∧
      r.transient_density = 0.5 ∧ r.dynamic_range_db = 20.0 := by
  have hfl : ((⌊(0.01 : ℝ) * ((48000 : ℕ) : ℝ)⌋).toNat) = 480 := by
    norm_num
    rfl
  cases audio with
  | mono x =>
    simp only [Aud.length] at h1 h2
    have hnp : ¬ (min 4096 x.length < 1) := by omega
    have hnf : ¬ (2 ≤ x.length / 480) := by omega
    simp only [analyse]
    rw [if_neg hnp, hfl, if_neg (by norm_num : ¬ (480 = 0)), if_neg hnf]
    exact ⟨_, rfl, rfl, rfl⟩
  | stereo x =>
    simp only [Aud.length] at h1 h2
    have hlen : (x.map (fun p => (p.1 + p.2) / 2)).length = x.length := List.length_map _ _
    have hnp : ¬ (min 4096 (x.map (fun p => (p.1 + p.2) / 2)).length < 1) := by
      rw [hlen]
      omega
    have hnf : ¬ (2 ≤ (x.map (fun p => (p.1 + p.2) / 2)).length / 480) := by
      rw [hlen]
      omega
    simp only [analyse]
    rw [if_neg hnp, hfl, if_neg (by norm_num : ¬ (480 = 0)), if_neg hnf]
    exact ⟨_, rfl, rfl, rfl⟩

/-- Witness for C9 at the one-sample mono input `[1]` and the one-frame
stereo input `[(1, 0)]`, with dummy backends. -/
theorem analyse_short_input_defaults_witness :
    (∃ r, analyse (fun _ _ _ => ⟨[], []⟩) (fun _ _ => 0) (.mono [(1 : ℝ)]) 48000 = .ok r ∧
        r.transient_density = 0.5 ∧ r.dynamic_range_db = 20.0) ∧
      ∃ r, analyse (fun _ _ _ => ⟨[], []⟩) (fun _ _ => 0) (.stereo [((1 : ℝ), (0 : ℝ))])
          48000 = .ok r ∧
        r.transient_density = 0.5 ∧ r.dynamic_range_db = 20.0 :=
  ⟨analyse_short_input_defaults (fun _ _ _ => ⟨[], []⟩) (fun _ _ => 0) (.mono [(1 : ℝ)])
      (by simp [Aud.length]) (by simp [Aud.length]),
    analyse_short_input_defaults (fun _ _ _ => ⟨[], []⟩) (fun _ _ => 0)
      (.stereo [((1 : ℝ), (0 : ℝ))]) (by simp [Aud.length]) (by simp [Aud.length])⟩

/-- **C9, counterexample.** On the zero-length buffer — mono and stereo
alike — `analyse` raises rather than returning defaults: the segment
length passed to the stft is `min(4096, 0) = 0`, which the library
rejects. -/
theorem analyse_empty_cex :
    analyse (fun _ _ _ => ⟨[], []⟩) (fun _ _ => 0) (.mono []) 48000 = .error () ∧
      analyse (fun _ _ _ => ⟨[], []⟩) (fun _ _ => 0) (.stereo []) 48000 = .error () := by
  constructor <;> simp [analyse]

end SpatialAudio
